import Mathlib

/-!
Verification of the gauge-reading pipeline (embedded-gauge-reading-tinyml).

The Python sources are shallowly embedded over the real numbers: Python
floats become `ℝ`, `math.atan2 dy dx` becomes `Complex.arg ⟨dx, dy⟩`,
`math.hypot` becomes `Real.sqrt (dx ^ 2 + dy ^ 2)`, Python's float `%`
(with a positive modulus) becomes `fmod`, raised `ValueError`s become
`Option`/`Except` failure values, and `float("nan")` aggregate metrics
become `Option.none`.
-/

open Classical

/-- Python's float modulo `x % y`: `x - y * floor (x / y)` (used by
`needle_fraction` with the positive modulus `2 * pi`). -/
noncomputable def fmod (x y : ℝ) : ℝ := x - y * (⌊x / y⌋ : ℤ)

/-- `math.hypot dx dy` over the reals. -/
noncomputable def hypot (dx dy : ℝ) : ℝ := Real.sqrt (dx ^ 2 + dy ^ 2)

/-! ## Data model (dataset.py) -/

/-- `dataset.PointLabel`: a named 2-D pixel coordinate. -/
structure PointLabel where
  x : ℝ
  y : ℝ
  label : String

/-- `dataset.EllipseLabel`: the dial ellipse. -/
structure EllipseLabel where
  cx : ℝ
  cy : ℝ
  rx : ℝ
  ry : ℝ
  rotation : ℝ
  label : String

/-- `dataset.Sample`: one annotated image. -/
structure Sample where
  image_path : String
  dial : EllipseLabel
  center : PointLabel
  tip : PointLabel

/-! ## Gauge calibration (gauge/processing.py) -/

/-- `processing.GaugeSpec`: per-gauge calibration. -/
structure GaugeSpec where
  gauge_id : String
  min_angle_rad : ℝ
  sweep_rad : ℝ
  min_value : ℝ
  max_value : ℝ

/-- `processing.needle_angle_clockwise_rad`: `atan2 (tip.y - center.y)
(tip.x - center.x)`, embedded as the argument of the complex number whose
real part is `dx` and imaginary part is `dy` (`Complex.arg` agrees with
`atan2` on every quadrant, on the axes and at the origin). -/
noncomputable def needle_angle_clockwise_rad (s : Sample) : ℝ :=
  Complex.arg ⟨s.tip.x - s.center.x, s.tip.y - s.center.y⟩

/-- The `shifted` intermediate of `processing.needle_fraction`:
`(raw_angle - spec.min_angle_rad) % (2.0 * math.pi)`. -/
noncomputable def wrapped_angle (s : Sample) (spec : GaugeSpec) : ℝ :=
  fmod (needle_angle_clockwise_rad s - spec.min_angle_rad) (2 * Real.pi)

/-- The clamped fraction `min(shifted / spec.sweep_rad, 1.0)` computed by
`processing.needle_fraction` when it does not raise. -/
noncomputable def fraction_clamped (s : Sample) (spec : GaugeSpec) : ℝ :=
  min (wrapped_angle s spec / spec.sweep_rad) 1

/-- `processing.needle_fraction`; the strict-mode `ValueError` is the
`none` value. -/
noncomputable def needle_fraction (s : Sample) (spec : GaugeSpec) (strict : Bool) :
    Option ℝ :=
  if strict = true ∧ spec.sweep_rad < wrapped_angle s spec then none
  else some (fraction_clamped s spec)

/-- `processing.needle_value`: linear interpolation of the fraction. -/
noncomputable def needle_value (s : Sample) (spec : GaugeSpec) (strict : Bool) :
    Option ℝ :=
  (needle_fraction s spec strict).map
    (fun fraction => spec.min_value + fraction * (spec.max_value - spec.min_value))

/-- The value `needle_value` produces whenever it does not raise. -/
noncomputable def needle_value_clamped (s : Sample) (spec : GaugeSpec) : ℝ :=
  spec.min_value + fraction_clamped s spec * (spec.max_value - spec.min_value)

/-! ## Basic lemmas about `fmod` -/

theorem fmod_nonneg (x y : ℝ) (hy : 0 < y) : 0 ≤ fmod x y := by
  have h := Int.floor_le (x / y)
  have : y * (⌊x / y⌋ : ℝ) ≤ y * (x / y) := by
    exact mul_le_mul_of_nonneg_left h (le_of_lt hy)
  have hxy : y * (x / y) = x := by field_simp
  unfold fmod
  nlinarith [this, hxy]

theorem fmod_lt (x y : ℝ) (hy : 0 < y) : fmod x y < y := by
  have h := Int.lt_floor_add_one (x / y)
  have : y * (x / y) < y * ((⌊x / y⌋ : ℝ) + 1) := by
    exact mul_lt_mul_of_pos_left h hy
  have hxy : y * (x / y) = x := by field_simp
  unfold fmod
  nlinarith [this, hxy]

/-- For arguments already in `[0, y)`, `fmod` is the identity. -/
theorem fmod_eq_self (x y : ℝ) (h0 : 0 ≤ x) (hxy : x < y) : fmod x y = x := by
  have hy : 0 < y := lt_of_le_of_lt h0 hxy
  have hfloor : ⌊x / y⌋ = 0 := by
    rw [Int.floor_eq_zero_iff]
    constructor
    · exact div_nonneg h0 (le_of_lt hy)
    · rw [div_lt_one hy]; exact hxy
  unfold fmod
  rw [hfloor]
  push_cast
  ring

/-- For arguments in `[-y, 0)` the Python float modulo adds one period. -/
theorem fmod_eq_add_of_neg (x y : ℝ) (h0 : -y ≤ x) (h1 : x < 0) (hy : 0 < y) :
    fmod x y = x + y := by
  have hfloor : ⌊x / y⌋ = -1 := by
    have hlo : ((-1 : ℤ) : ℝ) ≤ x / y := by
      push_cast
      rw [neg_le, ← neg_div]
      exact (div_le_one hy).mpr (by linarith)
    have hhi : x / y < (-1 : ℤ) + 1 := by
      push_cast
      norm_num
      exact div_neg_of_neg_of_pos h1 hy
    exact Int.floor_eq_iff.mpr ⟨hlo, hhi⟩
  unfold fmod
  rw [hfloor]
  push_cast
  ring

/-! ## Concrete samples and specs used by the spec's exact test points -/

/-- The dial ellipse used by the builder tests. -/
noncomputable def dial0 : EllipseLabel := ⟨100, 120, 20, 10, 0, "temp_dial"⟩

/-- Origin-centered needle base point. -/
noncomputable def p00 : PointLabel := ⟨0, 0, "temp_center"⟩

/-- Sample with center `(0,0)` and tip `(1,0)`. -/
noncomputable def sampleRight : Sample := ⟨"in.jpg", dial0, p00, ⟨1, 0, "temp_tip"⟩⟩

/-- Sample with center `(0,0)` and tip `(0,1)`. -/
noncomputable def sampleUp : Sample := ⟨"up.jpg", dial0, p00, ⟨0, 1, "temp_tip"⟩⟩

/-- Sample with center `(0,0)` and tip `(-1,0)`. -/
noncomputable def sampleLeft : Sample := ⟨"left.jpg", dial0, p00, ⟨-1, 0, "temp_tip"⟩⟩

/-- Sample with center `(0,0)` and tip `(0,-1)`: wraps to `3π/2`. -/
noncomputable def sampleDown : Sample := ⟨"out.jpg", dial0, p00, ⟨0, -1, "temp_tip"⟩⟩

/-- The spec of §8: `min_angle=0, sweep=π, min_value=0, max=100`. -/
noncomputable def spec100 : GaugeSpec :=
  ⟨"littlegood_home_temp_gauge_c", 0, Real.pi, 0, 100⟩

theorem angle_sampleRight : needle_angle_clockwise_rad sampleRight = 0 := by
  have h : (⟨sampleRight.tip.x - sampleRight.center.x,
      sampleRight.tip.y - sampleRight.center.y⟩ : ℂ) = 1 := by
    apply Complex.ext <;> simp [sampleRight, p00]
  unfold needle_angle_clockwise_rad
  rw [h, Complex.arg_one]

theorem angle_sampleUp : needle_angle_clockwise_rad sampleUp = Real.pi / 2 := by
  have h : (⟨sampleUp.tip.x - sampleUp.center.x,
      sampleUp.tip.y - sampleUp.center.y⟩ : ℂ) = Complex.I := by
    apply Complex.ext <;> simp [sampleUp, p00]
  unfold needle_angle_clockwise_rad
  rw [h, Complex.arg_I]

theorem angle_sampleLeft : needle_angle_clockwise_rad sampleLeft = Real.pi := by
  have h : (⟨sampleLeft.tip.x - sampleLeft.center.x,
      sampleLeft.tip.y - sampleLeft.center.y⟩ : ℂ) = -1 := by
    apply Complex.ext <;> simp [sampleLeft, p00]
  unfold needle_angle_clockwise_rad
  rw [h, Complex.arg_neg_one]

theorem angle_sampleDown :
    needle_angle_clockwise_rad sampleDown = -(Real.pi / 2) := by
  have h : (⟨sampleDown.tip.x - sampleDown.center.x,
      sampleDown.tip.y - sampleDown.center.y⟩ : ℂ) = -Complex.I := by
    apply Complex.ext <;> simp [sampleDown, p00]
  unfold needle_angle_clockwise_rad
  rw [h, Complex.arg_neg_I]

theorem wrapped_sampleRight : wrapped_angle sampleRight spec100 = 0 := by
  unfold wrapped_angle
  rw [angle_sampleRight]
  show fmod (0 - spec100.min_angle_rad) (2 * Real.pi) = 0
  have : (0 : ℝ) - spec100.min_angle_rad = 0 := by
    simp [spec100]
  rw [this]
  exact fmod_eq_self 0 (2 * Real.pi) le_rfl (by positivity)

theorem wrapped_sampleUp : wrapped_angle sampleUp spec100 = Real.pi / 2 := by
  unfold wrapped_angle
  rw [angle_sampleUp]
  have : Real.pi / 2 - spec100.min_angle_rad = Real.pi / 2 := by
    simp [spec100]
  rw [this]
  exact fmod_eq_self _ _ (by positivity) (by linarith [Real.pi_pos])

theorem wrapped_sampleLeft : wrapped_angle sampleLeft spec100 = Real.pi := by
  unfold wrapped_angle
  rw [angle_sampleLeft]
  have : Real.pi - spec100.min_angle_rad = Real.pi := by
    simp [spec100]
  rw [this]
  exact fmod_eq_self _ _ (by positivity) (by linarith [Real.pi_pos])

theorem wrapped_sampleDown :
    wrapped_angle sampleDown spec100 = 3 * Real.pi / 2 := by
  unfold wrapped_angle
  rw [angle_sampleDown]
  have h : -(Real.pi / 2) - spec100.min_angle_rad = -(Real.pi / 2) := by
    simp [spec100]
  rw [h]
  have := fmod_eq_add_of_neg (-(Real.pi / 2)) (2 * Real.pi)
    (by linarith [Real.pi_pos]) (by linarith [Real.pi_pos]) (by positivity)
  rw [this]
  ring

theorem fraction_sampleRight : fraction_clamped sampleRight spec100 = 0 := by
  unfold fraction_clamped
  rw [wrapped_sampleRight]
  show min (0 / Real.pi) 1 = 0
  rw [zero_div]
  norm_num

theorem fraction_sampleUp : fraction_clamped sampleUp spec100 = 1 / 2 := by
  unfold fraction_clamped
  rw [wrapped_sampleUp]
  show min (Real.pi / 2 / Real.pi) 1 = 1 / 2
  have h : Real.pi / 2 / Real.pi = 1 / 2 := by
    field_simp
    ring
  rw [h]
  norm_num

theorem fraction_sampleLeft : fraction_clamped sampleLeft spec100 = 1 := by
  unfold fraction_clamped
  rw [wrapped_sampleLeft]
  show min (Real.pi / Real.pi) 1 = 1
  rw [div_self Real.pi_ne_zero]
  norm_num

theorem fraction_sampleDown : fraction_clamped sampleDown spec100 = 1 := by
  unfold fraction_clamped
  rw [wrapped_sampleDown]
  show min (3 * Real.pi / 2 / Real.pi) 1 = 1
  have h : 3 * Real.pi / 2 / Real.pi = 3 / 2 := by
    field_simp
    ring
  rw [h]
  norm_num

theorem strict_ok_sampleRight :
    needle_fraction sampleRight spec100 true = some 0 := by
  unfold needle_fraction
  rw [if_neg, fraction_sampleRight]
  rw [wrapped_sampleRight]
  intro hcon
  have : spec100.sweep_rad < 0 := hcon.2
  have hpi : spec100.sweep_rad = Real.pi := rfl
  linarith [Real.pi_pos, hpi ▸ this]

theorem strict_ok_sampleUp :
    needle_fraction sampleUp spec100 true = some (1 / 2) := by
  unfold needle_fraction
  rw [if_neg, fraction_sampleUp]
  rw [wrapped_sampleUp]
  intro hcon
  have : spec100.sweep_rad < Real.pi / 2 := hcon.2
  have hpi : spec100.sweep_rad = Real.pi := rfl
  linarith [Real.pi_pos, hpi ▸ this]

theorem strict_ok_sampleLeft :
    needle_fraction sampleLeft spec100 true = some 1 := by
  unfold needle_fraction
  rw [if_neg, fraction_sampleLeft]
  rw [wrapped_sampleLeft]
  intro hcon
  have : spec100.sweep_rad < Real.pi := hcon.2
  have hpi : spec100.sweep_rad = Real.pi := rfl
  linarith [hpi ▸ this]

theorem strict_fail_sampleDown :
    needle_fraction sampleDown spec100 true = none := by
  unfold needle_fraction
  rw [if_pos]
  refine ⟨rfl, ?_⟩
  rw [wrapped_sampleDown]
  show Real.pi < 3 * Real.pi / 2
  linarith [Real.pi_pos]

theorem nonstrict_sampleDown :
    needle_fraction sampleDown spec100 false = some 1 := by
  unfold needle_fraction
  rw [if_neg, fraction_sampleDown]
  intro hcon
  exact Bool.false_ne_true hcon.1

/-- C1: with center `(0,0)` the raw needle angle is `atan2` of the tip
coordinates — tip `(1,0) ↦ 0`, `(0,1) ↦ π/2`, `(-1,0) ↦ π`,
`(0,-1) ↦ -π/2` exactly — and against the spec
`min_angle=0, sweep=π, min_value=0, max_value=100` the calibrated value is
the linear interpolation `min_value + fraction * (max_value - min_value)`:
tip at angle `0` reads `0`, at `π/2` reads `50`, at `π` reads `100`. -/
theorem C1_angle_convention_and_sweep_scaling :
    (∀ s : Sample, needle_angle_clockwise_rad s
      = Complex.arg ⟨s.tip.x - s.center.x, s.tip.y - s.center.y⟩)
    ∧ needle_angle_clockwise_rad sampleRight = 0
    ∧ needle_angle_clockwise_rad sampleUp = Real.pi / 2
    ∧ needle_angle_clockwise_rad sampleLeft = Real.pi
    ∧ needle_angle_clockwise_rad sampleDown = -(Real.pi / 2)
    ∧ needle_value sampleRight spec100 true = some 0
    ∧ needle_value sampleUp spec100 true = some 50
    ∧ needle_value sampleLeft spec100 true = some 100 := by
  refine ⟨fun s => rfl, angle_sampleRight, angle_sampleUp, angle_sampleLeft,
    angle_sampleDown, ?_, ?_, ?_⟩
  · unfold needle_value
    rw [strict_ok_sampleRight]
    show some (spec100.min_value + 0 * (spec100.max_value - spec100.min_value))
      = some 0
    have h1 : spec100.min_value = 0 := rfl
    rw [h1]
    norm_num
  · unfold needle_value
    rw [strict_ok_sampleUp]
    show some (spec100.min_value + 1 / 2 * (spec100.max_value - spec100.min_value))
      = some 50
    have h1 : spec100.min_value = 0 := rfl
    have h2 : spec100.max_value = 100 := rfl
    rw [h1, h2]
    norm_num
  · unfold needle_value
    rw [strict_ok_sampleLeft]
    show some (spec100.min_value + 1 * (spec100.max_value - spec100.min_value))
      = some 100
    have h1 : spec100.min_value = 0 := rfl
    have h2 : spec100.max_value = 100 := rfl
    rw [h1, h2]
    norm_num

/-- C2: strict mode raises exactly when the wrapped fraction exceeds `1`;
non-strict mode returns the wrapped fraction clamped into `[0,1]`; a
fraction of exactly `0` or `1` is a legal boundary value in strict mode;
and, concretely, the sample that wraps to `3π/2` against the `π`-sweep
spec raises in strict mode and clamps to fraction `1` in non-strict
mode. -/
theorem C2_strict_and_nonstrict_fraction (s : Sample) (spec : GaugeSpec)
    (h : 0 < spec.sweep_rad) :
    (needle_fraction s spec true = none
      ↔ 1 < wrapped_angle s spec / spec.sweep_rad)
    ∧ needle_fraction s spec false
      = some (min (wrapped_angle s spec / spec.sweep_rad) 1)
    ∧ (∀ f, needle_fraction s spec false = some f → 0 ≤ f ∧ f ≤ 1)
    ∧ (wrapped_angle s spec / spec.sweep_rad = 1
      → needle_fraction s spec true = some 1)
    ∧ (wrapped_angle s spec / spec.sweep_rad = 0
      → needle_fraction s spec true = some 0)
    ∧ needle_fraction sampleDown spec100 true = none
    ∧ needle_fraction sampleDown spec100 false = some 1 := by
  have hfrac_nonneg : 0 ≤ wrapped_angle s spec / spec.sweep_rad :=
    div_nonneg (fmod_nonneg _ _ (by positivity)) (le_of_lt h)
  refine ⟨?_, ?_, ?_, ?_, ?_, strict_fail_sampleDown, nonstrict_sampleDown⟩
  · unfold needle_fraction
    rw [one_lt_div h]
    by_cases hc : spec.sweep_rad < wrapped_angle s spec
    · rw [if_pos ⟨rfl, hc⟩]
      simp [hc]
    · rw [if_neg (fun hcon => hc hcon.2)]
      simp [hc]
  · unfold needle_fraction
    rw [if_neg (fun hcon => Bool.false_ne_true hcon.1)]
    rfl
  · intro f hf
    unfold needle_fraction at hf
    rw [if_neg (fun hcon => Bool.false_ne_true hcon.1)] at hf
    have hfe : f = fraction_clamped s spec := by
      exact (Option.some_inj.mp hf).symm
    subst hfe
    unfold fraction_clamped
    exact ⟨le_min hfrac_nonneg zero_le_one, min_le_right _ _⟩
  · intro hone
    have heq : wrapped_angle s spec = spec.sweep_rad := by
      have := (div_eq_iff (ne_of_gt h)).mp hone
      linarith
    unfold needle_fraction
    rw [if_neg (fun hcon => absurd heq (ne_of_gt hcon.2))]
    unfold fraction_clamped
    rw [hone]
    norm_num
  · intro hzero
    have heq : wrapped_angle s spec = 0 := by
      have := (div_eq_iff (ne_of_gt h)).mp hzero
      linarith
    unfold needle_fraction
    rw [if_neg]
    · unfold fraction_clamped
      rw [hzero]
      norm_num
    · intro hcon
      rw [heq] at hcon
      linarith [hcon.2]

/-- Witness for C2 at the concrete `3π/2` sample and `π`-sweep spec. -/
theorem C2_strict_and_nonstrict_fraction_witness :
    needle_fraction sampleDown spec100 true = none
    ∧ needle_fraction sampleDown spec100 false = some 1 := by
  have h := C2_strict_and_nonstrict_fraction sampleDown spec100 Real.pi_pos
  exact ⟨h.2.2.2.2.2.1, h.2.2.2.2.2.2⟩

/-! ## Crop box (training.py `_compute_crop_box`) -/

/-- `training._compute_crop_box`: padded axis-aligned dial crop box in
`(x_min, y_min, x_max, y_max)` order. -/
noncomputable def compute_crop_box (s : Sample) (pad : ℝ) : ℝ × ℝ × ℝ × ℝ :=
  let pad_x : ℝ := s.dial.rx * pad
  let pad_y : ℝ := s.dial.ry * pad
  (s.dial.cx - s.dial.rx - pad_x, s.dial.cy - s.dial.ry - pad_y,
    s.dial.cx + s.dial.rx + pad_x, s.dial.cy + s.dial.ry + pad_y)

/-- The dial of the spec's crop-box test point: `cx=100, cy=200, rx=20,
ry=10`. -/
noncomputable def dialCrop : EllipseLabel := ⟨100, 200, 20, 10, 0, "temp_dial"⟩

/-- A sample carrying `dialCrop`. -/
noncomputable def sampleCrop : Sample := ⟨"a.jpg", dialCrop, p00, ⟨1, 0, "temp_tip"⟩⟩

/-- C8: the crop box is exactly the padded bounding box of the dial
ellipse; for dial `cx=100, cy=200, rx=20, ry=10` and pad ratio `0.1` it is
exactly `(78, 189, 122, 211)`. -/
theorem C8_crop_box_geometry :
    (∀ (s : Sample) (pad : ℝ), compute_crop_box s pad
      = (s.dial.cx - s.dial.rx - s.dial.rx * pad,
        s.dial.cy - s.dial.ry - s.dial.ry * pad,
        s.dial.cx + s.dial.rx + s.dial.rx * pad,
        s.dial.cy + s.dial.ry + s.dial.ry * pad))
    ∧ compute_crop_box sampleCrop (1 / 10) = (78, 189, 122, 211) := by
  constructor
  · intro s pad
    rfl
  · unfold compute_crop_box sampleCrop dialCrop
    norm_num

/-! ## Training examples and the split partitioner (training.py) -/

/-- `training.TrainingExample`: one training row. -/
structure TrainingExample where
  image_path : String
  value : ℝ
  crop_box_xyxy : ℝ × ℝ × ℝ × ℝ
  needle_unit_xy : ℝ × ℝ

/-- `training.DatasetSplit`. -/
structure DatasetSplit where
  train_examples : List TrainingExample
  val_examples : List TrainingExample
  test_examples : List TrainingExample

/-- `training.TrainConfig`, restricted to the fields the verified
functions read (split fractions, seed, warmup epochs); fractions are
embedded as rationals, the warmup count as an integer so that negative
settings are expressible. -/
structure TrainConfig where
  seed : ℕ
  val_fraction : ℚ
  test_fraction : ℚ
  mobilenet_warmup_epochs : ℤ

/-- `training._validate_split_config`; each `raise ValueError` is an
`Except.error` carrying the source's message. -/
def validate_split_config (c : TrainConfig) : Except String Unit :=
  if ¬(0 < c.val_fraction ∧ c.val_fraction < 1) then
    Except.error "val_fraction must be in (0, 1)."
  else if ¬(0 < c.test_fraction ∧ c.test_fraction < 1) then
    Except.error "test_fraction must be in (0, 1)."
  else if 1 ≤ c.val_fraction + c.test_fraction then
    Except.error "val_fraction + test_fraction must be < 1.0."
  else if c.mobilenet_warmup_epochs < 0 then
    Except.error "mobilenet_warmup_epochs must be >= 0."
  else Except.ok ()

/-- Modelled from the spec: `sklearn.model_selection.train_test_split`'s
seeded shuffle is not part of this repository; the spec only requires a
deterministic seed-dependent permutation of the input, which is modelled
here as a rotation by the seed. Every claim proved below about the
splitter holds for any permutation. -/
def sklearn_shuffle {α : Type} (seed : ℕ) (l : List α) : List α :=
  l.rotate seed

/-- Modelled from the spec: `train_test_split(l, test_size, random_state,
shuffle=True)` — shuffle deterministically by the seed and split off a
`test_size` fraction (rounded up, as sklearn does for float sizes).
Returns `(rest, test)`. -/
def train_test_split_list {α : Type} (seed : ℕ) (test_size : ℚ) (l : List α) :
    List α × List α :=
  let shuffled : List α := sklearn_shuffle seed l
  let nTest : ℕ := Nat.ceil (test_size * l.length)
  (shuffled.drop nTest, shuffled.take nTest)

/-- `training._split_examples`: the `<3`-example guard followed by the
two-stage split (test split first, then validation at the relative
fraction `val_fraction / (1 - test_fraction)`). -/
def split_examples (examples : List TrainingExample) (c : TrainConfig) :
    Except String DatasetSplit :=
  if examples.length < 3 then
    Except.error "Need at least 3 examples to create train/val/test splits."
  else
    let first := train_test_split_list c.seed c.test_fraction examples
    let second :=
      train_test_split_list c.seed (c.val_fraction / (1 - c.test_fraction)) first.1
    Except.ok ⟨second.1, second.2, first.2⟩

/-- The split partitioner as invoked by `training.train`: configuration
validation followed by `_split_examples`. -/
def split_partitioner (examples : List TrainingExample) (c : TrainConfig) :
    Except String DatasetSplit :=
  match validate_split_config c with
  | Except.error e => Except.error e
  | Except.ok _ => split_examples examples c

/-- The two halves returned by one `train_test_split` call are together a
permutation of the input. -/
theorem train_test_split_list_perm {α : Type} (seed : ℕ) (q : ℚ) (l : List α) :
    ((train_test_split_list seed q l).1 ++ (train_test_split_list seed q l).2).Perm
      l := by
  unfold train_test_split_list sklearn_shuffle
  refine List.perm_append_comm.trans ?_
  rw [List.take_append_drop]
  exact l.rotate_perm seed

/-- C3: for at least 3 examples the splitter succeeds and its three parts
are pairwise disjoint (for duplicate-free inputs), partition the input
exactly — every example appears exactly once across the parts, so the
lengths add up — and repeated calls with identical inputs give identical
partitions. -/
theorem C3_split_invariants (examples : List TrainingExample) (c : TrainConfig)
    (h3 : 3 ≤ examples.length) :
    ∃ sp, split_examples examples c = Except.ok sp
      ∧ (sp.train_examples ++ sp.val_examples ++ sp.test_examples).Perm examples
      ∧ sp.train_examples.length + sp.val_examples.length
          + sp.test_examples.length = examples.length
      ∧ (examples.Nodup →
          sp.train_examples.Disjoint sp.val_examples
          ∧ sp.train_examples.Disjoint sp.test_examples
          ∧ sp.val_examples.Disjoint sp.test_examples)
      ∧ split_examples examples c = split_examples examples c := by
  have hguard : ¬ examples.length < 3 := by omega
  set first := train_test_split_list c.seed c.test_fraction examples with hfirst
  set second := train_test_split_list c.seed
    (c.val_fraction / (1 - c.test_fraction)) first.1 with hsecond
  have hok : split_examples examples c
      = Except.ok ⟨second.1, second.2, first.2⟩ := by
    rw [split_examples, if_neg hguard]
  have h1 : (second.1 ++ second.2).Perm first.1 := by
    rw [hsecond]
    exact train_test_split_list_perm _ _ _
  have h2 : (first.1 ++ first.2).Perm examples := by
    rw [hfirst]
    exact train_test_split_list_perm _ _ _
  have hperm : ((second.1 ++ second.2) ++ first.2).Perm examples :=
    (h1.append_right first.2).trans h2
  refine ⟨⟨second.1, second.2, first.2⟩, hok, hperm, ?_, ?_, rfl⟩
  · show second.1.length + second.2.length + first.2.length = examples.length
    have hlen := hperm.length_eq
    simp only [List.length_append] at hlen
    omega
  · intro hnd
    have hnodup : ((second.1 ++ second.2) ++ first.2).Nodup :=
      hperm.nodup_iff.mpr hnd
    rw [List.nodup_append] at hnodup
    obtain ⟨h12, _, hdisj⟩ := hnodup
    rw [List.nodup_append] at h12
    obtain ⟨_, _, htv⟩ := h12
    have hsplit := List.disjoint_append_left.mp hdisj
    exact ⟨htv, hsplit.1, hsplit.2⟩

/-- Three concrete training examples (enough for a split). -/
noncomputable def exsThree : List TrainingExample :=
  [⟨"a.jpg", 1, (0, 0, 8, 8), (1, 0)⟩,
    ⟨"b.jpg", 2, (0, 0, 8, 8), (1, 0)⟩,
    ⟨"c.jpg", 3, (0, 0, 8, 8), (1, 0)⟩]

/-- A valid configuration whose warmup-epoch count is zero. -/
def cfgWarm0 : TrainConfig := ⟨21, 3 / 20, 3 / 20, 0⟩

/-- Witness for C3 at the concrete three-example list. -/
theorem C3_split_invariants_witness :
    3 ≤ exsThree.length
    ∧ ∃ sp, split_examples exsThree cfgWarm0 = Except.ok sp
      ∧ (sp.train_examples ++ sp.val_examples ++ sp.test_examples).Perm exsThree
      ∧ sp.train_examples.length + sp.val_examples.length
          + sp.test_examples.length = exsThree.length
      ∧ (exsThree.Nodup →
          sp.train_examples.Disjoint sp.val_examples
          ∧ sp.train_examples.Disjoint sp.test_examples
          ∧ sp.val_examples.Disjoint sp.test_examples)
      ∧ split_examples exsThree cfgWarm0 = split_examples exsThree cfgWarm0 := by
  have h3 : 3 ≤ exsThree.length := by
    simp [exsThree]
  exact ⟨h3, C3_split_invariants exsThree cfgWarm0 h3⟩

/-- C9 counterexample: the claim says the partitioner fails for every
non-positive warmup-epochs setting, but the code only rejects negative
values — with warmup epochs `0` (and otherwise valid inputs) the
partitioner succeeds. -/
theorem C9_counterexample_warmup_zero :
    cfgWarm0.mobilenet_warmup_epochs ≤ 0
    ∧ ∃ sp, split_partitioner exsThree cfgWarm0 = Except.ok sp := by
  have hval : validate_split_config cfgWarm0 = Except.ok () := by
    unfold validate_split_config cfgWarm0
    norm_num
  have hguard : ¬ exsThree.length < 3 := by
    simp [exsThree]
  refine ⟨le_refl 0, ?_⟩
  have hstep : split_partitioner exsThree cfgWarm0
      = split_examples exsThree cfgWarm0 := by
    unfold split_partitioner
    rw [hval]
  rw [hstep, split_examples, if_neg hguard]
  exact ⟨_, rfl⟩

/-- C9 (amended): the split partitioner fails with a configuration error
exactly when fewer than 3 examples are supplied, a fraction lies outside
`(0,1)`, the fractions sum to `≥ 1`, or the warmup-epoch setting is
negative (the code accepts a warmup-epoch count of zero); under valid
inputs it does not fail. -/
theorem C9_config_error_iff (examples : List TrainingExample) (c : TrainConfig) :
    (∃ e, split_partitioner examples c = Except.error e)
    ↔ (examples.length < 3
      ∨ ¬(0 < c.val_fraction ∧ c.val_fraction < 1)
      ∨ ¬(0 < c.test_fraction ∧ c.test_fraction < 1)
      ∨ 1 ≤ c.val_fraction + c.test_fraction
      ∨ c.mobilenet_warmup_epochs < 0) := by
  unfold split_partitioner validate_split_config split_examples
  split_ifs with h1 h2 h3 h4 h5 <;> simp_all

/-! ## Training-example builder (training.py `_build_training_examples`) -/

/-- The needle length `math.hypot(dx, dy)` used by the builder's
zero-length guard. -/
noncomputable def needle_len (s : Sample) : ℝ :=
  hypot (s.tip.x - s.center.x) (s.tip.y - s.center.y)

/-- If the strict sweep validation succeeds, `needle_value` cannot fail
for either strictness flag and returns the clamped interpolated value
(the builder relies on this: it validates strictly first and then calls
`needle_value` with the configured flag). -/
theorem needle_value_of_strict_ok (s : Sample) (spec : GaugeSpec) (b : Bool)
    (f : ℝ) (h : needle_fraction s spec true = some f) :
    needle_value s spec b = some (needle_value_clamped s spec) := by
  have hcond : ¬ (spec.sweep_rad < wrapped_angle s spec) := by
    intro hcon
    unfold needle_fraction at h
    rw [if_pos ⟨rfl, hcon⟩] at h
    exact Option.noConfusion h
  cases b with
  | false =>
    unfold needle_value needle_fraction
    rw [if_neg (fun hcon => Bool.false_ne_true hcon.1)]
    rfl
  | true =>
    unfold needle_value needle_fraction
    rw [if_neg (fun hcon => hcond hcon.2)]
    rfl

/-- `training._build_training_examples`: strict sweep validation converts
to a drop-count, then the zero-length-needle guard drops degenerate
samples; surviving samples become examples. The source computes the value
by `needle_value(sample, spec, strict=strict_labels)`, which by
`needle_value_of_strict_ok` always yields the clamped interpolated value
once the strict validation has passed, so the embedding uses that value
directly. -/
noncomputable def build_training_examples (spec : GaugeSpec)
    (strict_labels : Bool) (pad : ℝ) : List Sample → List TrainingExample × ℕ
  | [] => ([], 0)
  | s :: rest =>
    let acc := build_training_examples spec strict_labels pad rest
    match needle_fraction s spec true with
    | none => (acc.1, acc.2 + 1)
    | some _ =>
      if needle_len s ≤ 0 then (acc.1, acc.2 + 1)
      else
        (⟨s.image_path, needle_value_clamped s spec, compute_crop_box s pad,
          ((s.tip.x - s.center.x) / needle_len s,
            (s.tip.y - s.center.y) / needle_len s)⟩ :: acc.1,
          acc.2)

/-- Samples dropped because the strict sweep validation fails. -/
noncomputable def drop_strict_count (spec : GaugeSpec) (l : List Sample) : ℕ :=
  (l.filter (fun s => (needle_fraction s spec true).isNone)).length

/-- Samples that pass sweep validation but have a zero-length needle. -/
noncomputable def drop_zero_len_count (spec : GaugeSpec) (l : List Sample) : ℕ :=
  (l.filter (fun s =>
    (needle_fraction s spec true).isSome && decide (needle_len s ≤ 0))).length

theorem needle_len_sampleRight : needle_len sampleRight = 1 := by
  unfold needle_len hypot
  show Real.sqrt (((1 : ℝ) - 0) ^ 2 + ((0 : ℝ) - 0) ^ 2) = 1
  rw [show ((1 : ℝ) - 0) ^ 2 + ((0 : ℝ) - 0) ^ 2 = 1 by norm_num]
  exact Real.sqrt_one

/-- C4: the builder never loses a sample — every input either becomes an
example or is dropped and counted, the drop count being the sum of the
two drop reasons (strict sweep violation; zero-length needle); for one
in-sweep and one out-of-sweep sample it returns exactly one example and a
dropped-count of 1. -/
theorem C4_builder_drop_accounting :
    (∀ (spec : GaugeSpec) (b : Bool) (pad : ℝ) (samples : List Sample),
      (build_training_examples spec b pad samples).1.length
          + (build_training_examples spec b pad samples).2 = samples.length
      ∧ (build_training_examples spec b pad samples).2
          = drop_strict_count spec samples + drop_zero_len_count spec samples)
    ∧ (build_training_examples spec100 true (1 / 10)
        [sampleRight, sampleDown]).1.length = 1
    ∧ (build_training_examples spec100 true (1 / 10)
        [sampleRight, sampleDown]).2 = 1 := by
  have hgen : ∀ (spec : GaugeSpec) (b : Bool) (pad : ℝ) (samples : List Sample),
      (build_training_examples spec b pad samples).1.length
          + (build_training_examples spec b pad samples).2 = samples.length
      ∧ (build_training_examples spec b pad samples).2
          = drop_strict_count spec samples + drop_zero_len_count spec samples := by
    intro spec b pad samples
    induction samples with
    | nil =>
      simp [build_training_examples, drop_strict_count, drop_zero_len_count]
    | cons s rest ih =>
      rcases hm : needle_fraction s spec true with _ | f
      · have hbuild : build_training_examples spec b pad (s :: rest)
            = ((build_training_examples spec b pad rest).1,
              (build_training_examples spec b pad rest).2 + 1) := by
          simp only [build_training_examples, hm]
        have hs : drop_strict_count spec (s :: rest)
            = drop_strict_count spec rest + 1 := by
          unfold drop_strict_count
          rw [List.filter_cons_of_pos (by simp [hm])]
          simp [Nat.add_comm]
        have hz : drop_zero_len_count spec (s :: rest)
            = drop_zero_len_count spec rest := by
          unfold drop_zero_len_count
          rw [List.filter_cons_of_neg (by simp [hm])]
        rw [hbuild, hs, hz]
        refine ⟨?_, ?_⟩
        · simp only [List.length_cons]
          omega
        · omega
      · by_cases hl : needle_len s ≤ 0
        · have hbuild : build_training_examples spec b pad (s :: rest)
              = ((build_training_examples spec b pad rest).1,
                (build_training_examples spec b pad rest).2 + 1) := by
            simp only [build_training_examples, hm]
            rw [if_pos hl]
          have hs : drop_strict_count spec (s :: rest)
              = drop_strict_count spec rest := by
            unfold drop_strict_count
            rw [List.filter_cons_of_neg (by simp [hm])]
          have hz : drop_zero_len_count spec (s :: rest)
              = drop_zero_len_count spec rest + 1 := by
            unfold drop_zero_len_count
            rw [List.filter_cons_of_pos (by simp [hm, hl])]
            simp [Nat.add_comm]
          rw [hbuild, hs, hz]
          refine ⟨?_, ?_⟩
          · simp only [List.length_cons]
            omega
          · omega
        · have hbuild : build_training_examples spec b pad (s :: rest)
              = (⟨s.image_path, needle_value_clamped s spec, compute_crop_box s pad,
                  ((s.tip.x - s.center.x) / needle_len s,
                    (s.tip.y - s.center.y) / needle_len s)⟩
                    :: (build_training_examples spec b pad rest).1,
                (build_training_examples spec b pad rest).2) := by
            simp only [build_training_examples, hm]
            rw [if_neg hl]
          have hs : drop_strict_count spec (s :: rest)
              = drop_strict_count spec rest := by
            unfold drop_strict_count
            rw [List.filter_cons_of_neg (by simp [hm])]
          have hz : drop_zero_len_count spec (s :: rest)
              = drop_zero_len_count spec rest := by
            unfold drop_zero_len_count
            rw [List.filter_cons_of_neg (by simp [hm, hl])]
          rw [hbuild, hs, hz]
          refine ⟨?_, ?_⟩
          · simp only [List.length_cons]
            omega
          · omega
  have hdown : build_training_examples spec100 true (1 / 10) [sampleDown]
      = ([], 1) := by
    simp only [build_training_examples, strict_fail_sampleDown]
  have hcons : build_training_examples spec100 true (1 / 10)
      [sampleRight, sampleDown]
      = (⟨sampleRight.image_path, needle_value_clamped sampleRight spec100,
          compute_crop_box sampleRight (1 / 10),
          ((sampleRight.tip.x - sampleRight.center.x) / needle_len sampleRight,
            (sampleRight.tip.y - sampleRight.center.y)
              / needle_len sampleRight)⟩
            :: (build_training_examples spec100 true (1 / 10) [sampleDown]).1,
        (build_training_examples spec100 true (1 / 10) [sampleDown]).2) := by
    simp only [build_training_examples, strict_ok_sampleRight,
      strict_fail_sampleDown]
    rw [if_neg (by rw [needle_len_sampleRight]; norm_num)]
  refine ⟨hgen, ?_, ?_⟩
  · rw [hcons, hdown]
    simp
  · rw [hcons, hdown]

/-! ## Label-sweep auditor (labels.py `summarize_label_sweep`) -/

/-- `labels.LabelSummary`. -/
structure LabelSummary where
  total_samples : ℕ
  in_sweep : ℕ
  out_of_sweep : ℕ
  min_fraction : ℝ
  max_fraction : ℝ

/-- The auditor's loop: collect the strict-mode fractions of the samples
(in order) and count the sweep violations. -/
noncomputable def sweep_scan (spec : GaugeSpec) : List Sample → List ℝ × ℕ
  | [] => ([], 0)
  | s :: rest =>
    let acc := sweep_scan spec rest
    match needle_fraction s spec true with
    | none => (acc.1, acc.2 + 1)
    | some f => (f :: acc.1, acc.2)

/-- `labels.summarize_label_sweep`: totals plus Python's `min`/`max` of
the collected fractions, with the empty-guard returning `0.0` for both. -/
noncomputable def summarize_label_sweep (samples : List Sample)
    (spec : GaugeSpec) : LabelSummary :=
  let scan := sweep_scan spec samples
  match scan.1 with
  | [] => ⟨samples.length, 0, scan.2, 0, 0⟩
  | f :: rest =>
    ⟨samples.length, (f :: rest).length, scan.2, rest.foldl min f,
      rest.foldl max f⟩

theorem foldl_min_le_start (l : List ℝ) (a : ℝ) : l.foldl min a ≤ a := by
  induction l generalizing a with
  | nil => exact le_refl a
  | cons x l ih =>
    calc (x :: l).foldl min a = l.foldl min (min a x) := rfl
    _ ≤ min a x := ih (min a x)
    _ ≤ a := min_le_left a x

theorem foldl_min_le_mem (l : List ℝ) (a : ℝ) :
    ∀ x ∈ l, l.foldl min a ≤ x := by
  induction l generalizing a with
  | nil => intro x hx; exact absurd hx (List.not_mem_nil x)
  | cons y l ih =>
    intro x hx
    rcases List.mem_cons.mp hx with hxy | hxl
    · have hy : (y :: l).foldl min a ≤ y :=
        calc (y :: l).foldl min a = l.foldl min (min a y) := rfl
        _ ≤ min a y := foldl_min_le_start l (min a y)
        _ ≤ y := min_le_right a y
      rw [hxy]
      exact hy
    · exact ih (min a y) x hxl

theorem foldl_min_mem (l : List ℝ) (a : ℝ) :
    l.foldl min a = a ∨ l.foldl min a ∈ l := by
  induction l generalizing a with
  | nil => exact Or.inl rfl
  | cons x l ih =>
    rcases ih (min a x) with h | h
    · rcases min_choice a x with hm | hm
      · exact Or.inl (by rw [show (x :: l).foldl min a = l.foldl min (min a x) from rfl, h, hm])
      · refine Or.inr (List.mem_cons.mpr (Or.inl ?_))
        rw [show (x :: l).foldl min a = l.foldl min (min a x) from rfl, h, hm]
    · exact Or.inr (List.mem_cons.mpr (Or.inr h))

theorem foldl_max_ge_start (l : List ℝ) (a : ℝ) : a ≤ l.foldl max a := by
  induction l generalizing a with
  | nil => exact le_refl a
  | cons x l ih =>
    calc a ≤ max a x := le_max_left a x
    _ ≤ l.foldl max (max a x) := ih (max a x)
    _ = (x :: l).foldl max a := rfl

theorem foldl_max_ge_mem (l : List ℝ) (a : ℝ) :
    ∀ x ∈ l, x ≤ l.foldl max a := by
  induction l generalizing a with
  | nil => intro x hx; exact absurd hx (List.not_mem_nil x)
  | cons y l ih =>
    intro x hx
    rcases List.mem_cons.mp hx with hxy | hxl
    · have hy : y ≤ (y :: l).foldl max a :=
        calc y ≤ max a y := le_max_right a y
        _ ≤ l.foldl max (max a y) := foldl_max_ge_start l (max a y)
        _ = (y :: l).foldl max a := rfl
      rw [hxy]
      exact hy
    · exact ih (max a y) x hxl

theorem foldl_max_mem (l : List ℝ) (a : ℝ) :
    l.foldl max a = a ∨ l.foldl max a ∈ l := by
  induction l generalizing a with
  | nil => exact Or.inl rfl
  | cons x l ih =>
    rcases ih (max a x) with h | h
    · rcases max_choice a x with hm | hm
      · exact Or.inl (by rw [show (x :: l).foldl max a = l.foldl max (max a x) from rfl, h, hm])
      · refine Or.inr (List.mem_cons.mpr (Or.inl ?_))
        rw [show (x :: l).foldl max a = l.foldl max (max a x) from rfl, h, hm]
    · exact Or.inr (List.mem_cons.mpr (Or.inr h))

/-- The scan's two components account for every sample. -/
theorem sweep_scan_length (spec : GaugeSpec) (samples : List Sample) :
    (sweep_scan spec samples).1.length + (sweep_scan spec samples).2
      = samples.length := by
  induction samples with
  | nil => rfl
  | cons s rest ih =>
    rcases hm : needle_fraction s spec true with _ | f <;>
      simp only [sweep_scan, hm, List.length_cons] <;> omega

/-- C5: the auditor is total (never raises; over the reals no NaN value
exists and none is produced) — it reports the total, the in-sweep count
as the number of strict-mode successes (with violations counted in
`out_of_sweep`, the two adding up to the total), min/max over the
successful fractions only, and `0.0` for both when there are no
successes. -/
theorem C5_auditor_totals_and_minmax (samples : List Sample) (spec : GaugeSpec) :
    (summarize_label_sweep samples spec).total_samples = samples.length
    ∧ (summarize_label_sweep samples spec).in_sweep
      = (sweep_scan spec samples).1.length
    ∧ (summarize_label_sweep samples spec).in_sweep
        + (summarize_label_sweep samples spec).out_of_sweep = samples.length
    ∧ ((summarize_label_sweep samples spec).in_sweep = 0 →
        (summarize_label_sweep samples spec).min_fraction = 0
        ∧ (summarize_label_sweep samples spec).max_fraction = 0)
    ∧ (∀ f ∈ (sweep_scan spec samples).1,
        (summarize_label_sweep samples spec).min_fraction ≤ f
        ∧ f ≤ (summarize_label_sweep samples spec).max_fraction)
    ∧ (0 < (summarize_label_sweep samples spec).in_sweep →
        (summarize_label_sweep samples spec).min_fraction
          ∈ (sweep_scan spec samples).1
        ∧ (summarize_label_sweep samples spec).max_fraction
          ∈ (sweep_scan spec samples).1) := by
  have hlen := sweep_scan_length spec samples
  rcases hscan : (sweep_scan spec samples).1 with _ | ⟨f, rest⟩
  · have hsum : summarize_label_sweep samples spec
        = ⟨samples.length, 0, (sweep_scan spec samples).2, 0, 0⟩ := by
      simp only [summarize_label_sweep, hscan]
    rw [hsum]
    rw [hscan] at hlen
    refine ⟨rfl, rfl, ?_, fun _ => ⟨rfl, rfl⟩, ?_, ?_⟩
    · show 0 + (sweep_scan spec samples).2 = samples.length
      simpa using hlen
    · intro g hg
      exact absurd hg (List.not_mem_nil g)
    · intro hpos
      exact absurd hpos (by norm_num)
  · have hsum : summarize_label_sweep samples spec
        = ⟨samples.length, (f :: rest).length, (sweep_scan spec samples).2,
          rest.foldl min f, rest.foldl max f⟩ := by
      simp only [summarize_label_sweep, hscan]
    rw [hsum]
    rw [hscan] at hlen
    refine ⟨rfl, rfl, ?_, ?_, ?_, ?_⟩
    · show (f :: rest).length + (sweep_scan spec samples).2 = samples.length
      simpa using hlen
    · intro hzero
      exact absurd hzero (by simp)
    · intro g hg
      rcases List.mem_cons.mp hg with hgf | hgr
      · constructor
        · rw [hgf]
          exact foldl_min_le_start rest f
        · rw [hgf]
          exact foldl_max_ge_start rest f
      · exact ⟨foldl_min_le_mem rest f g hgr, foldl_max_ge_mem rest f g hgr⟩
    · intro _
      constructor
      · rcases foldl_min_mem rest f with h | h
        · rw [h]; exact List.mem_cons_self f rest
        · exact List.mem_cons_of_mem f h
      · rcases foldl_max_mem rest f with h | h
        · rw [h]; exact List.mem_cons_self f rest
        · exact List.mem_cons_of_mem f h

/-- Witness for C5 on the empty sample list: zero totals and `0.0`
min/max fractions. -/
theorem C5_auditor_totals_and_minmax_witness :
    (summarize_label_sweep [] spec100).total_samples = 0
    ∧ (summarize_label_sweep [] spec100).min_fraction = 0
    ∧ (summarize_label_sweep [] spec100).max_fraction = 0 := by
  have h := C5_auditor_totals_and_minmax [] spec100
  have hin : (summarize_label_sweep [] spec100).in_sweep = 0 := by
    rw [h.2.1]
    rfl
  exact ⟨h.1, (h.2.2.2.1 hin).1, (h.2.2.2.1 hin).2⟩

/-! ## Classical needle detector (baseline_classical_cv.py) -/

/-- One Hough segment. `cv2.HoughLinesP` returns `int32` pixel endpoint
coordinates (the source casts them to float with `float(x1_i)` etc.), so
the endpoints are integers. -/
structure Segment where
  x1 : ℤ
  y1 : ℤ
  x2 : ℤ
  y2 : ℤ

/-- `baseline_classical_cv.NeedleDetection`. -/
structure NeedleDetection where
  unit_dx : ℝ
  unit_dy : ℝ
  confidence : ℝ

/-- The `1e-6` degeneracy threshold used by the detector. -/
noncomputable def hough_eps : ℝ := 1 / 1000000

/-- `seg_len = math.hypot(x2 - x1, y2 - y1)`. -/
noncomputable def seg_len (s : Segment) : ℝ :=
  hypot ((s.x2 : ℝ) - (s.x1 : ℝ)) ((s.y2 : ℝ) - (s.y1 : ℝ))

/-- Distance from the segment midpoint to the dial center. -/
noncomputable def seg_midpoint_dist (s : Segment) (c : ℝ × ℝ) : ℝ :=
  hypot (((s.x1 : ℝ) + (s.x2 : ℝ)) / 2 - c.1) (((s.y1 : ℝ) + (s.y2 : ℝ)) / 2 - c.2)

/-- `score = seg_len - 1.5 * midpoint_dist_to_center`. -/
noncomputable def seg_score (s : Segment) (c : ℝ × ℝ) : ℝ :=
  seg_len s - 1.5 * seg_midpoint_dist s c

/-- Distance from endpoint `(x1, y1)` to the center. -/
noncomputable def endpoint1_r (s : Segment) (c : ℝ × ℝ) : ℝ :=
  hypot ((s.x1 : ℝ) - c.1) ((s.y1 : ℝ) - c.2)

/-- Distance from endpoint `(x2, y2)` to the center. -/
noncomputable def endpoint2_r (s : Segment) (c : ℝ × ℝ) : ℝ :=
  hypot ((s.x2 : ℝ) - c.1) ((s.y2 : ℝ) - c.2)

/-- The "tip": whichever endpoint is farther from the center
(`x1 if endpoint1_r > endpoint2_r else x2`). -/
noncomputable def seg_tip (s : Segment) (c : ℝ × ℝ) : ℝ × ℝ :=
  if endpoint2_r s c < endpoint1_r s c then ((s.x1 : ℝ), (s.y1 : ℝ))
  else ((s.x2 : ℝ), (s.y2 : ℝ))

/-- `norm = math.hypot(tip_dx, tip_dy)` for the chosen tip. -/
noncomputable def tip_norm (s : Segment) (c : ℝ × ℝ) : ℝ :=
  hypot ((seg_tip s c).1 - c.1) ((seg_tip s c).2 - c.2)

/-- The unit vector from center to tip. -/
noncomputable def unit_tip (s : Segment) (c : ℝ × ℝ) : ℝ × ℝ :=
  (((seg_tip s c).1 - c.1) / tip_norm s c, ((seg_tip s c).2 - c.2) / tip_norm s c)

/-- A candidate segment: long enough to survive the `seg_len <= 1e-6`
filter. -/
noncomputable def seg_valid (s : Segment) : Prop := hough_eps < seg_len s

/-- The running `(best_score, best_unit_vec)` state of the scoring loop;
`best_score = none` models the initial `float("-inf")` (every real score
beats it). -/
structure ScanState where
  best_score : Option ℝ
  best_vec : Option (ℝ × ℝ)

/-- `score > best_score`, with `none` playing `-inf`. -/
def score_beats (sc : ℝ) : Option ℝ → Prop
  | none => True
  | some b => b < sc

/-- One iteration of the detector's scoring loop. -/
noncomputable def step_segment (c : ℝ × ℝ) (st : ScanState) (s : Segment) :
    ScanState :=
  if seg_len s ≤ hough_eps then st
  else if score_beats (seg_score s c) st.best_score then
    if tip_norm s c ≤ hough_eps then ⟨some (seg_score s c), st.best_vec⟩
    else ⟨some (seg_score s c), some (unit_tip s c)⟩
  else st

/-- The full scoring loop over the Hough segments. -/
noncomputable def scan_segments (c : ℝ × ℝ) (segs : List Segment) : ScanState :=
  segs.foldl (step_segment c) ⟨none, none⟩

/-- `baseline_classical_cv.detect_needle_unit_vector`, embedded from the
Hough output onwards: the image-processing stages (CLAHE, Canny, annulus
mask, HoughLinesP) are the external input producing `segs`; an absent
Hough result (`lines is None`) is the empty list. -/
noncomputable def detect_needle_unit_vector (segs : List Segment) (c : ℝ × ℝ)
    (dial_radius_px : ℝ) : Option NeedleDetection :=
  if dial_radius_px ≤ 1 then none
  else
    match (scan_segments c segs).best_vec with
    | none => none
    | some v =>
      some ⟨v.1, v.2, max ((scan_segments c segs).best_score.getD 0) 0⟩

theorem hypot_eq_abs (u v : ℝ) : hypot u v = Complex.abs ⟨u, v⟩ := by
  rw [Complex.abs_apply, Complex.normSq_mk]
  unfold hypot
  ring_nf

theorem hypot_nonneg (u v : ℝ) : 0 ≤ hypot u v := Real.sqrt_nonneg _

/-- Triangle inequality: the segment length is at most the sum of the two
endpoint-to-center distances. -/
theorem seg_len_le_radii_sum (s : Segment) (c : ℝ × ℝ) :
    seg_len s ≤ endpoint1_r s c + endpoint2_r s c := by
  have hA : (⟨(s.x2 : ℝ) - c.1, (s.y2 : ℝ) - c.2⟩ : ℂ)
      - (⟨(s.x1 : ℝ) - c.1, (s.y1 : ℝ) - c.2⟩ : ℂ)
      = (⟨(s.x2 : ℝ) - (s.x1 : ℝ), (s.y2 : ℝ) - (s.y1 : ℝ)⟩ : ℂ) := by
    apply Complex.ext <;> simp
  have htri := norm_sub_le
    ((⟨(s.x2 : ℝ) - c.1, (s.y2 : ℝ) - c.2⟩ : ℂ))
    ((⟨(s.x1 : ℝ) - c.1, (s.y1 : ℝ) - c.2⟩ : ℂ))
  rw [hA] at htri
  simp only [Complex.norm_eq_abs] at htri
  unfold seg_len endpoint1_r endpoint2_r
  rw [hypot_eq_abs, hypot_eq_abs, hypot_eq_abs]
  linarith

/-- Candidate segments have integer endpoints, so any segment longer than
`1e-6` is at least one pixel long. -/
theorem seg_len_ge_one (s : Segment) (h : hough_eps < seg_len s) :
    1 ≤ seg_len s := by
  by_cases hd : s.x2 = s.x1 ∧ s.y2 = s.y1
  · exfalso
    have hzero : seg_len s = 0 := by
      unfold seg_len hypot
      rw [hd.1, hd.2]
      simp
    rw [hzero] at h
    unfold hough_eps at h
    norm_num at h
  · have hint : 1 ≤ (s.x2 - s.x1) ^ 2 + (s.y2 - s.y1) ^ 2 := by
      rcases not_and_or.mp hd with hx | hy
      · have hne : s.x2 - s.x1 ≠ 0 := sub_ne_zero.mpr hx
        nlinarith [Int.one_le_abs hne, sq_abs (s.x2 - s.x1),
          sq_nonneg (s.y2 - s.y1), abs_nonneg (s.x2 - s.x1)]
      · have hne : s.y2 - s.y1 ≠ 0 := sub_ne_zero.mpr hy
        nlinarith [Int.one_le_abs hne, sq_abs (s.y2 - s.y1),
          sq_nonneg (s.x2 - s.x1), abs_nonneg (s.y2 - s.y1)]
    have hreal : (1 : ℝ) ≤ ((s.x2 : ℝ) - (s.x1 : ℝ)) ^ 2
        + ((s.y2 : ℝ) - (s.y1 : ℝ)) ^ 2 := by
      have := hint
      push_cast at this ⊢
      exact_mod_cast this
    unfold seg_len hypot
    calc (1 : ℝ) = Real.sqrt 1 := Real.sqrt_one.symm
    _ ≤ Real.sqrt (((s.x2 : ℝ) - (s.x1 : ℝ)) ^ 2
        + ((s.y2 : ℝ) - (s.y1 : ℝ)) ^ 2) := Real.sqrt_le_sqrt hreal

/-- The chosen tip's distance to the center is the larger endpoint
radius. -/
theorem tip_norm_eq_max (s : Segment) (c : ℝ × ℝ) :
    tip_norm s c = max (endpoint1_r s c) (endpoint2_r s c) := by
  unfold tip_norm seg_tip
  split_ifs with h
  · rw [max_eq_left (le_of_lt h)]
    rfl
  · rw [max_eq_right (not_lt.mp h)]
    rfl

/-- Since Hough endpoints are integer pixels, a surviving candidate's tip
is at least half a pixel from the center — the `tip coincides with
center` degenerate branch can never fire. -/
theorem tip_norm_gt_eps (s : Segment) (c : ℝ × ℝ) (h : seg_valid s) :
    hough_eps < tip_norm s c := by
  have h1 : 1 ≤ seg_len s := seg_len_ge_one s h
  have htri := seg_len_le_radii_sum s c
  have hmax := tip_norm_eq_max s c
  have hle1 : endpoint1_r s c ≤ max (endpoint1_r s c) (endpoint2_r s c) :=
    le_max_left _ _
  have hle2 : endpoint2_r s c ≤ max (endpoint1_r s c) (endpoint2_r s c) :=
    le_max_right _ _
  unfold hough_eps
  rw [hmax]
  nlinarith [hle1, hle2, htri, h1]

theorem score_beats_none (sc : ℝ) : score_beats sc none := trivial

theorem score_beats_some (sc b : ℝ) : score_beats sc (some b) ↔ b < sc :=
  Iff.rfl

/-- Because the degenerate-tip branch is unreachable (integer endpoints),
every score improvement also updates the best unit vector. -/
theorem step_segment_simplified (c : ℝ × ℝ) (st : ScanState) (s : Segment) :
    step_segment c st s
      = if seg_len s ≤ hough_eps then st
        else if score_beats (seg_score s c) st.best_score then
          ⟨some (seg_score s c), some (unit_tip s c)⟩
        else st := by
  unfold step_segment
  by_cases h1 : seg_len s ≤ hough_eps
  · rw [if_pos h1, if_pos h1]
  · rw [if_neg h1, if_neg h1]
    by_cases h2 : score_beats (seg_score s c) st.best_score
    · rw [if_pos h2, if_pos h2]
      rw [if_neg (not_le.mpr (tip_norm_gt_eps s c (not_le.mp h1)))]
    · rw [if_neg h2, if_neg h2]

/-- Loop invariant of the scoring scan: either nothing valid has been
seen (state untouched), or the state holds the score and unit vector of a
maximal-score valid segment among those seen. -/
def scan_inv (c : ℝ × ℝ) (seen : List Segment) (st : ScanState) : Prop :=
  (st.best_score = none ∧ st.best_vec = none ∧ ∀ s ∈ seen, ¬ seg_valid s)
  ∨ (∃ b v, st.best_score = some b ∧ st.best_vec = some v
      ∧ (∃ s, s ∈ seen ∧ seg_valid s ∧ seg_score s c = b ∧ v = unit_tip s c)
      ∧ ∀ s ∈ seen, seg_valid s → seg_score s c ≤ b)

theorem step_preserves_inv (c : ℝ × ℝ) (seen : List Segment) (st : ScanState)
    (s : Segment) (h : scan_inv c seen st) :
    scan_inv c (seen ++ [s]) (step_segment c st s) := by
  rw [step_segment_simplified]
  by_cases h1 : seg_len s ≤ hough_eps
  · rw [if_pos h1]
    rcases h with ⟨hbs, hbv, hall⟩ | ⟨b, v, hbs, hbv, ⟨t, ht, htv, hts, htu⟩, hbd⟩
    · left
      refine ⟨hbs, hbv, ?_⟩
      intro u hu
      rcases List.mem_append.mp hu with hu | hu
      · exact hall u hu
      · rw [List.mem_singleton.mp hu]
        intro hval
        exact absurd h1 (not_le.mpr hval)
    · right
      refine ⟨b, v, hbs, hbv,
        ⟨t, List.mem_append.mpr (Or.inl ht), htv, hts, htu⟩, ?_⟩
      intro u hu hval
      rcases List.mem_append.mp hu with hu | hu
      · exact hbd u hu hval
      · rw [List.mem_singleton.mp hu] at hval
        exact absurd h1 (not_le.mpr hval)
  · rw [if_neg h1]
    have hvs : seg_valid s := not_le.mp h1
    by_cases h2 : score_beats (seg_score s c) st.best_score
    · rw [if_pos h2]
      right
      refine ⟨seg_score s c, unit_tip s c, rfl, rfl,
        ⟨s, List.mem_append.mpr (Or.inr (List.mem_singleton.mpr rfl)),
          hvs, rfl, rfl⟩, ?_⟩
      intro u hu hval
      rcases List.mem_append.mp hu with hu | hu
      · rcases h with ⟨hbs, _, hall⟩ | ⟨b, v, hbs, _, _, hbd⟩
        · exact absurd hval (hall u hu)
        · rw [hbs, score_beats_some] at h2
          exact le_of_lt (lt_of_le_of_lt (hbd u hu hval) h2)
      · rw [List.mem_singleton.mp hu]
    · rw [if_neg h2]
      rcases h with ⟨hbs, hbv, hall⟩ | ⟨b, v, hbs, hbv, hwit, hbd⟩
      · rw [hbs] at h2
        exact absurd (score_beats_none _) h2
      · right
        refine ⟨b, v, hbs, hbv, ?_, ?_⟩
        · rcases hwit with ⟨t, ht, htv, hts, htu⟩
          exact ⟨t, List.mem_append.mpr (Or.inl ht), htv, hts, htu⟩
        · intro u hu hval
          rcases List.mem_append.mp hu with hu | hu
          · exact hbd u hu hval
          · rw [hbs, score_beats_some, not_lt] at h2
            rw [List.mem_singleton.mp hu]
            exact h2

theorem foldl_scan_inv (c : ℝ × ℝ) (l : List Segment) :
    ∀ (st : ScanState) (seen : List Segment), scan_inv c seen st →
      scan_inv c (seen ++ l) (l.foldl (step_segment c) st) := by
  induction l with
  | nil =>
    intro st seen h
    simpa using h
  | cons s l ih =>
    intro st seen h
    have hstep := step_preserves_inv c seen st s h
    have hrest := ih (step_segment c st s) (seen ++ [s]) hstep
    rw [List.append_assoc] at hrest
    simpa using hrest

theorem scan_segments_inv (c : ℝ × ℝ) (segs : List Segment) :
    scan_inv c segs (scan_segments c segs) := by
  have h0 : scan_inv c [] ⟨none, none⟩ := by
    left
    exact ⟨rfl, rfl, fun s hs => absurd hs (List.not_mem_nil s)⟩
  have h := foldl_scan_inv c segs ⟨none, none⟩ [] h0
  simpa [scan_segments] using h

/-- C6: every candidate segment is scored `length - 1.5 * midpoint-to-
center distance`; a returned direction is the center-to-tip unit vector
of a maximum-scoring candidate (the tip being the endpoint farther from
the center, by definition of `seg_tip`); the result is "no detection"
exactly when no candidate survives the length filter (in particular for
an empty segment list); and — because Hough endpoints are integer
pixels — no surviving candidate's tip can coincide with the center, so
the degenerate-tip no-detection clause never fires. -/
theorem C6_detector_scoring_and_selection (segs : List Segment) (c : ℝ × ℝ)
    (r : ℝ) (h : 1 < r) :
    (∀ (s : Segment) (cc : ℝ × ℝ),
      seg_score s cc = seg_len s - 1.5 * seg_midpoint_dist s cc)
    ∧ (detect_needle_unit_vector segs c r = none
      ↔ ∀ s ∈ segs, seg_len s ≤ hough_eps)
    ∧ (∀ d, detect_needle_unit_vector segs c r = some d →
        ∃ s, s ∈ segs ∧ hough_eps < seg_len s
          ∧ (d.unit_dx, d.unit_dy) = unit_tip s c
          ∧ ∀ t ∈ segs, hough_eps < seg_len t → seg_score t c ≤ seg_score s c)
    ∧ (∀ s ∈ segs, hough_eps < seg_len s → hough_eps < tip_norm s c) := by
  have hr : ¬ (r ≤ 1) := not_le.mpr h
  refine ⟨fun s cc => rfl, ?_, ?_, fun s _ hs => tip_norm_gt_eps s c hs⟩
  · unfold detect_needle_unit_vector
    rw [if_neg hr]
    rcases hbv : (scan_segments c segs).best_vec with _ | v
    · have hinv := scan_segments_inv c segs
      rcases hinv with ⟨_, _, hall⟩ | ⟨b, v, _, hbv2, _, _⟩
      · simp only []
        constructor
        · intro _ s hs
          exact not_lt.mp (fun hlt => hall s hs hlt)
        · intro _
          trivial
      · rw [hbv] at hbv2
        exact Option.noConfusion hbv2
    · have hinv := scan_segments_inv c segs
      rcases hinv with ⟨_, hbv2, _⟩ | ⟨b, v2, hbs, hbv2, ⟨t, ht, htv, _, _⟩, _⟩
      · rw [hbv] at hbv2
        exact Option.noConfusion hbv2
      · simp only []
        constructor
        · intro hcon
          exact Option.noConfusion hcon
        · intro hall
          exact absurd (hall t ht) (not_le.mpr htv)
  · intro d hd
    unfold detect_needle_unit_vector at hd
    rw [if_neg hr] at hd
    rcases hbv : (scan_segments c segs).best_vec with _ | v
    · rw [hbv] at hd
      exact Option.noConfusion hd
    · rw [hbv] at hd
      have hinv := scan_segments_inv c segs
      rcases hinv with ⟨_, hbv2, _⟩ | ⟨b, v2, hbs, hbv2, ⟨t, ht, htv, hts, htu⟩, hbd⟩
      · rw [hbv] at hbv2
        exact Option.noConfusion hbv2
      · rw [hbv] at hbv2
        have hv2 : v2 = v := (Option.some_inj.mp hbv2).symm
        have hd2 : d = ⟨v.1, v.2,
            max ((scan_segments c segs).best_score.getD 0) 0⟩ :=
          (Option.some_inj.mp hd).symm
        refine ⟨t, ht, htv, ?_, ?_⟩
        · rw [hd2]
          show (v.1, v.2) = unit_tip t c
          rw [← htu, hv2]
        · intro u hu huv
          have := hbd u hu huv
          rw [hts]
          exact this

/-- C7: the detector fails gracefully — `dial_radius_px ≤ 1` returns "no
detection" immediately — and any returned confidence is
`max(best_score, 0)`, hence non-negative even for negative raw scores. -/
theorem C7_radius_guard_and_confidence (segs : List Segment) (c : ℝ × ℝ)
    (r : ℝ) :
    (r ≤ 1 → detect_needle_unit_vector segs c r = none)
    ∧ (∀ d, detect_needle_unit_vector segs c r = some d →
        (∃ b, (scan_segments c segs).best_score = some b
          ∧ d.confidence = max b 0)
        ∧ 0 ≤ d.confidence) := by
  constructor
  · intro hle
    unfold detect_needle_unit_vector
    rw [if_pos hle]
  · intro d hd
    by_cases hle : r ≤ 1
    · unfold detect_needle_unit_vector at hd
      rw [if_pos hle] at hd
      exact Option.noConfusion hd
    · unfold detect_needle_unit_vector at hd
      rw [if_neg hle] at hd
      rcases hbv : (scan_segments c segs).best_vec with _ | v
      · rw [hbv] at hd
        exact Option.noConfusion hd
      · rw [hbv] at hd
        have hinv := scan_segments_inv c segs
        rcases hinv with ⟨_, hbv2, _⟩ | ⟨b, v2, hbs, _, _, _⟩
        · rw [hbv] at hbv2
          exact Option.noConfusion hbv2
        · have hd2 : d = ⟨v.1, v.2,
              max ((scan_segments c segs).best_score.getD 0) 0⟩ :=
            (Option.some_inj.mp hd).symm
          refine ⟨⟨b, hbs, ?_⟩, ?_⟩
          · rw [hd2]
            show max ((scan_segments c segs).best_score.getD 0) 0 = max b 0
            rw [hbs]
            rfl
          · rw [hd2]
            exact le_max_right _ _

/-- The dial center used in the concrete detector evaluations. -/
noncomputable def c0 : ℝ × ℝ := ((0 : ℝ), (0 : ℝ))

/-- A long horizontal segment far from the center: its score is negative,
so its clamped confidence is `0`. -/
def segFar : Segment := ⟨10, 0, 13, 0⟩

theorem hypot_x_zero (a : ℝ) (ha : 0 ≤ a) : hypot a 0 = a := by
  unfold hypot
  rw [show a ^ 2 + (0 : ℝ) ^ 2 = a ^ 2 by ring, Real.sqrt_sq ha]

theorem seg_len_segFar : seg_len segFar = 3 := by
  unfold seg_len segFar
  rw [show ((13 : ℤ) : ℝ) - ((10 : ℤ) : ℝ) = 3 by norm_num,
    show ((0 : ℤ) : ℝ) - ((0 : ℤ) : ℝ) = 0 by norm_num]
  exact hypot_x_zero 3 (by norm_num)

theorem e1_segFar : endpoint1_r segFar c0 = 10 := by
  unfold endpoint1_r segFar c0
  rw [show ((10 : ℤ) : ℝ) - (((0 : ℝ), (0 : ℝ)) : ℝ × ℝ).1 = 10 by norm_num,
    show ((0 : ℤ) : ℝ) - (((0 : ℝ), (0 : ℝ)) : ℝ × ℝ).2 = 0 by norm_num]
  exact hypot_x_zero 10 (by norm_num)

theorem e2_segFar : endpoint2_r segFar c0 = 13 := by
  unfold endpoint2_r segFar c0
  rw [show ((13 : ℤ) : ℝ) - (((0 : ℝ), (0 : ℝ)) : ℝ × ℝ).1 = 13 by norm_num,
    show ((0 : ℤ) : ℝ) - (((0 : ℝ), (0 : ℝ)) : ℝ × ℝ).2 = 0 by norm_num]
  exact hypot_x_zero 13 (by norm_num)

theorem tip_segFar : seg_tip segFar c0 = ((13 : ℝ), (0 : ℝ)) := by
  unfold seg_tip
  rw [if_neg]
  · show (((segFar.x2 : ℝ)), ((segFar.y2 : ℝ))) = ((13 : ℝ), (0 : ℝ))
    unfold segFar
    norm_num
  · rw [e1_segFar, e2_segFar]
    norm_num

theorem tip_norm_segFar : tip_norm segFar c0 = 13 := by
  unfold tip_norm
  rw [tip_segFar]
  show hypot (13 - c0.1) (0 - c0.2) = 13
  unfold c0
  rw [show (13 : ℝ) - (((0 : ℝ), (0 : ℝ)) : ℝ × ℝ).1 = 13 by norm_num,
    show (0 : ℝ) - (((0 : ℝ), (0 : ℝ)) : ℝ × ℝ).2 = 0 by norm_num]
  exact hypot_x_zero 13 (by norm_num)

theorem middist_segFar : seg_midpoint_dist segFar c0 = 23 / 2 := by
  unfold seg_midpoint_dist segFar c0
  rw [show (((10 : ℤ) : ℝ) + ((13 : ℤ) : ℝ)) / 2
        - (((0 : ℝ), (0 : ℝ)) : ℝ × ℝ).1 = 23 / 2 by norm_num,
    show (((0 : ℤ) : ℝ) + ((0 : ℤ) : ℝ)) / 2
        - (((0 : ℝ), (0 : ℝ)) : ℝ × ℝ).2 = 0 by norm_num]
  exact hypot_x_zero (23 / 2) (by norm_num)

theorem score_segFar : seg_score segFar c0 = -(57 / 4) := by
  unfold seg_score
  rw [seg_len_segFar, middist_segFar]
  norm_num

theorem unit_segFar : unit_tip segFar c0 = ((1 : ℝ), (0 : ℝ)) := by
  unfold unit_tip
  rw [tip_segFar, tip_norm_segFar]
  show ((13 - c0.1) / 13, (0 - c0.2) / 13) = ((1 : ℝ), (0 : ℝ))
  unfold c0
  norm_num

theorem scan_segFar : scan_segments c0 [segFar]
    = ⟨some (-(57 / 4)), some ((1 : ℝ), (0 : ℝ))⟩ := by
  unfold scan_segments
  rw [List.foldl_cons, List.foldl_nil, step_segment_simplified]
  rw [if_neg (by rw [seg_len_segFar]; unfold hough_eps; norm_num),
    if_pos (score_beats_none _)]
  rw [score_segFar, unit_segFar]

theorem detect_segFar : detect_needle_unit_vector [segFar] c0 50
    = some ⟨1, 0, 0⟩ := by
  unfold detect_needle_unit_vector
  rw [if_neg (by norm_num)]
  rw [scan_segFar]
  show some (NeedleDetection.mk 1 0 (max ((some (-(57 / 4) : ℝ)).getD 0) 0))
    = some (NeedleDetection.mk 1 0 0)
  rw [show ((some (-(57 / 4) : ℝ)).getD 0) = -(57 / 4) from rfl,
    max_eq_right (by norm_num : -(57 / 4 : ℝ) ≤ 0)]

/-- Witness for C7: a sub-pixel dial radius yields no detection, and the
far-off-center segment (raw best score `-57/4`) yields confidence `0`,
which the theorem certifies as `max(best_score, 0) ≥ 0`. -/
theorem C7_radius_guard_and_confidence_witness :
    detect_needle_unit_vector [] c0 (1 / 2) = none
    ∧ detect_needle_unit_vector [segFar] c0 50 = some ⟨1, 0, 0⟩
    ∧ (∃ b, (scan_segments c0 [segFar]).best_score = some b
        ∧ (⟨1, 0, 0⟩ : NeedleDetection).confidence = max b 0)
    ∧ 0 ≤ (⟨1, 0, 0⟩ : NeedleDetection).confidence := by
  have h := (C7_radius_guard_and_confidence [segFar] c0 50).2 ⟨1, 0, 0⟩
    detect_segFar
  exact ⟨(C7_radius_guard_and_confidence [] c0 (1 / 2)).1 (by norm_num),
    detect_segFar, h.1, h.2⟩

/-- Witness for C6 at an empty candidate list (no segments → no
detection) and the far segment (a detection whose direction is the unit
tip vector of a maximal-scoring segment). -/
theorem C6_detector_scoring_and_selection_witness :
    detect_needle_unit_vector [] c0 50 = none
    ∧ ∃ s, s ∈ [segFar] ∧ hough_eps < seg_len s
      ∧ (((1 : ℝ), (0 : ℝ)) : ℝ × ℝ) = unit_tip s c0
      ∧ ∀ t ∈ [segFar], hough_eps < seg_len t
        → seg_score t c0 ≤ seg_score s c0 := by
  constructor
  · exact (C6_detector_scoring_and_selection [] c0 50 (by norm_num)).2.1.mpr
      (fun s hs => absurd hs (List.not_mem_nil s))
  · have h := (C6_detector_scoring_and_selection [segFar] c0 50
      (by norm_num)).2.2.1 ⟨1, 0, 0⟩ detect_segFar
    exact h

/-! ## Classical baseline evaluation (`evaluate_classical_baseline`) -/

/-- `baseline_classical_cv.ClassicalPrediction`. -/
structure ClassicalPrediction where
  image_path : String
  true_value : ℝ
  predicted_value : ℝ
  abs_error : ℝ
  confidence : ℝ

/-- `baseline_classical_cv.ClassicalBaselineResult`; the `float("nan")`
sentinel metrics are `none`. -/
structure ClassicalBaselineResult where
  attempted_samples : ℕ
  successful_samples : ℕ
  failed_samples : ℕ
  mae : Option ℝ
  rmse : Option ℝ
  predictions : List ClassicalPrediction

/-- `baseline_classical_cv._needle_vector_to_value`: unit direction to
calibrated value, clamping non-strictly. -/
noncomputable def needle_vector_to_value (udx udy : ℝ) (spec : GaugeSpec) : ℝ :=
  let raw : ℝ := Complex.arg ⟨udx, udy⟩
  let shifted : ℝ := fmod (raw - spec.min_angle_rad) (2 * Real.pi)
  let fraction : ℝ := min (max (shifted / spec.sweep_rad) 0) 1
  spec.min_value + fraction * (spec.max_value - spec.min_value)

/-- Non-strict `needle_value` never fails. -/
theorem needle_value_false_eq (s : Sample) (spec : GaugeSpec) :
    needle_value s spec false = some (needle_value_clamped s spec) := by
  unfold needle_value needle_fraction
  rw [if_neg (fun hcon => Bool.false_ne_true hcon.1)]
  rfl

/-- The `attempted >= max_samples` break condition of the evaluation
loop. -/
def capReached (maxS : Option ℕ) (attempted : ℕ) : Prop :=
  match maxS with
  | none => False
  | some m => m ≤ attempted

theorem capReached_some (m a : ℕ) : capReached (some m) a ↔ m ≤ a := Iff.rfl

/-- The evaluation loop of `evaluate_classical_baseline`. The per-sample
`cv2.imread` + detector pipeline is abstracted as the `oracle` argument
(modelled from the spec: image decoding and OpenCV processing are outside
the embeddable core); `none` covers both an unreadable image and a failed
detection, which the source treats identically (`continue`). The true
value uses non-strict `needle_value`, which by `needle_value_false_eq`
always yields `needle_value_clamped`. -/
noncomputable def evaluate_go (oracle : Sample → Option NeedleDetection)
    (spec : GaugeSpec) (maxS : Option ℕ) :
    List Sample → ℕ → List ClassicalPrediction → ℕ × List ClassicalPrediction
  | [], attempted, preds => (attempted, preds)
  | s :: rest, attempted, preds =>
    if capReached maxS attempted then (attempted, preds)
    else
      match oracle s with
      | none => evaluate_go oracle spec maxS rest (attempted + 1) preds
      | some det =>
        evaluate_go oracle spec maxS rest (attempted + 1)
          (preds ++ [⟨s.image_path, needle_value_clamped s spec,
            needle_vector_to_value det.unit_dx det.unit_dy spec,
            |needle_vector_to_value det.unit_dx det.unit_dy spec
              - needle_value_clamped s spec|,
            det.confidence⟩])

/-- Arithmetic mean (`np.mean`). -/
noncomputable def list_mean (l : List ℝ) : ℝ := l.sum / l.length

/-- `baseline_classical_cv.evaluate_classical_baseline`. -/
noncomputable def evaluate_classical_baseline
    (oracle : Sample → Option NeedleDetection) (samples : List Sample)
    (spec : GaugeSpec) (maxS : Option ℕ) : ClassicalBaselineResult :=
  let res := evaluate_go oracle spec maxS samples 0 []
  let successful := res.2.length
  let failed := res.1 - successful
  if successful = 0 then
    ⟨res.1, 0, failed, none, none, []⟩
  else
    let errors := res.2.map (fun p => p.abs_error)
    ⟨res.1, successful, failed, some (list_mean errors),
      some (Real.sqrt (list_mean (errors.map (fun e => e ^ 2)))), res.2⟩

/-- Each loop iteration adds at most one prediction per attempt. -/
theorem evaluate_go_mono (oracle : Sample → Option NeedleDetection)
    (spec : GaugeSpec) (maxS : Option ℕ) :
    ∀ (l : List Sample) (a : ℕ) (preds : List ClassicalPrediction),
      (evaluate_go oracle spec maxS l a preds).2.length + a
        ≤ (evaluate_go oracle spec maxS l a preds).1 + preds.length := by
  intro l
  induction l with
  | nil =>
    intro a preds
    simp only [evaluate_go]
    omega
  | cons s rest ih =>
    intro a preds
    by_cases hcap : capReached maxS a
    · simp only [evaluate_go]
      rw [if_pos hcap]
      show preds.length + a ≤ a + preds.length
      omega
    · rcases ho : oracle s with _ | det
      · have heq : evaluate_go oracle spec maxS (s :: rest) a preds
            = evaluate_go oracle spec maxS rest (a + 1) preds := by
          simp only [evaluate_go]
          rw [if_neg hcap, ho]
        rw [heq]
        have := ih (a + 1) preds
        omega
      · have heq : evaluate_go oracle spec maxS (s :: rest) a preds
            = evaluate_go oracle spec maxS rest (a + 1)
              (preds ++ [⟨s.image_path, needle_value_clamped s spec,
                needle_vector_to_value det.unit_dx det.unit_dy spec,
                |needle_vector_to_value det.unit_dx det.unit_dy spec
                  - needle_value_clamped s spec|, det.confidence⟩]) := by
          simp only [evaluate_go]
          rw [if_neg hcap, ho]
        rw [heq]
        have := ih (a + 1) (preds ++ [⟨s.image_path,
          needle_value_clamped s spec,
          needle_vector_to_value det.unit_dx det.unit_dy spec,
          |needle_vector_to_value det.unit_dx det.unit_dy spec
            - needle_value_clamped s spec|, det.confidence⟩])
        simp only [List.length_append, List.length_cons, List.length_nil] at this
        omega

/-- The loop never exceeds the cap. -/
theorem evaluate_go_cap (oracle : Sample → Option NeedleDetection)
    (spec : GaugeSpec) (m : ℕ) :
    ∀ (l : List Sample) (a : ℕ) (preds : List ClassicalPrediction), a ≤ m →
      (evaluate_go oracle spec (some m) l a preds).1 ≤ m := by
  intro l
  induction l with
  | nil =>
    intro a preds ha
    simpa [evaluate_go] using ha
  | cons s rest ih =>
    intro a preds ha
    by_cases hcap : capReached (some m) a
    · simp only [evaluate_go]
      rw [if_pos hcap]
      exact ha
    · have ha1 : a + 1 ≤ m := by
        rw [capReached_some, not_le] at hcap
        omega
      rcases ho : oracle s with _ | det <;>
        simp only [evaluate_go] <;> rw [if_neg hcap, ho]
      · exact ih (a + 1) preds ha1
      · exact ih (a + 1) _ ha1

/-- C10 (implicit): the baseline evaluation result always satisfies
`attempted = successful + failed` with `successful = len(predictions)`;
a `max_samples` cap bounds the attempts (`max_samples = 0` means zero
attempts and NaN metrics, modelled as `none`); and zero successes yields
NaN metrics and an empty prediction list instead of an exception. -/
theorem C10_baseline_result_invariants
    (oracle : Sample → Option NeedleDetection) (samples : List Sample)
    (spec : GaugeSpec) (maxS : Option ℕ) :
    (evaluate_classical_baseline oracle samples spec maxS).attempted_samples
      = (evaluate_classical_baseline oracle samples spec maxS).successful_samples
        + (evaluate_classical_baseline oracle samples spec maxS).failed_samples
    ∧ (evaluate_classical_baseline oracle samples spec maxS).successful_samples
      = (evaluate_classical_baseline oracle samples spec
          maxS).predictions.length
    ∧ (∀ m, maxS = some m →
        (evaluate_classical_baseline oracle samples spec
          maxS).attempted_samples ≤ m)
    ∧ (maxS = some 0 →
        (evaluate_classical_baseline oracle samples spec
          maxS).attempted_samples = 0
        ∧ (evaluate_classical_baseline oracle samples spec maxS).mae = none
        ∧ (evaluate_classical_baseline oracle samples spec maxS).rmse = none)
    ∧ ((evaluate_classical_baseline oracle samples spec
          maxS).successful_samples = 0 →
        (evaluate_classical_baseline oracle samples spec maxS).mae = none
        ∧ (evaluate_classical_baseline oracle samples spec maxS).rmse = none
        ∧ (evaluate_classical_baseline oracle samples spec
            maxS).predictions = []) := by
  set res := evaluate_go oracle spec maxS samples 0 [] with hres
  have hmono := evaluate_go_mono oracle spec maxS samples 0 []
  have hS : res.2.length ≤ res.1 := by
    rw [hres]
    simpa using hmono
  have hcapall : ∀ m, maxS = some m → res.1 ≤ m := by
    intro m hm
    have h := evaluate_go_cap oracle spec m samples 0 [] (Nat.zero_le m)
    rw [hres, hm]
    exact h
  by_cases hzero : res.2.length = 0
  · have heval : evaluate_classical_baseline oracle samples spec maxS
        = ⟨res.1, 0, res.1 - res.2.length, none, none, []⟩ := by
      unfold evaluate_classical_baseline
      rw [← hres, if_pos hzero]
    rw [heval]
    refine ⟨?_, rfl, ?_, ?_, fun _ => ⟨rfl, rfl, rfl⟩⟩
    · show res.1 = 0 + (res.1 - res.2.length)
      omega
    · intro m hm
      exact hcapall m hm
    · intro h0
      refine ⟨?_, rfl, rfl⟩
      show res.1 = 0
      have := hcapall 0 h0
      omega
  · have heval : evaluate_classical_baseline oracle samples spec maxS
        = ⟨res.1, res.2.length, res.1 - res.2.length,
          some (list_mean (res.2.map (fun p => p.abs_error))),
          some (Real.sqrt (list_mean ((res.2.map
            (fun p => p.abs_error)).map (fun e => e ^ 2)))), res.2⟩ := by
      unfold evaluate_classical_baseline
      rw [← hres, if_neg hzero]
    rw [heval]
    refine ⟨?_, rfl, ?_, ?_, ?_⟩
    · show res.1 = res.2.length + (res.1 - res.2.length)
      omega
    · intro m hm
      exact hcapall m hm
    · intro h0
      exfalso
      have h1 := hcapall 0 h0
      omega
    · intro h0
      exact absurd h0 hzero

/-- Witness for C10 at a concrete all-failing oracle with a zero sample
cap: zero attempts and NaN (`none`) metrics. -/
theorem C10_baseline_result_invariants_witness :
    (evaluate_classical_baseline (fun _ => none) [sampleRight] spec100
      (some 0)).attempted_samples = 0
    ∧ (evaluate_classical_baseline (fun _ => none) [sampleRight] spec100
        (some 0)).mae = none
    ∧ (evaluate_classical_baseline (fun _ => none) [sampleRight] spec100
        (some 0)).rmse = none := by
  have h := C10_baseline_result_invariants (fun _ => none) [sampleRight]
    spec100 (some 0)
  exact h.2.2.2.1 rfl
